import Mathlib

/-!
Shallow embedding of the session-coordination core of the repository
(`src/session.py` and the state-mutating parts of `src/database.py`).

The SQLite store is modelled as an explicit `Session` value threaded through
every operation; `time.time()` becomes an explicit `now : Int` parameter, and
each call to `random.randint(lo, hi)` becomes an explicit draw parameter
`r : Int` (with the range `[lo, hi]` stated as a hypothesis where a theorem
needs it).  Python strings are Lean `String`s; `frozenset` of member ids is
`Finset String`; Python dicts that are iterated in insertion order
(`normalized_to_original`, the `groups` dict) are association lists that
preserve insertion order.
-/

/-- `session.PHASE_ADDING`. -/
def PHASE_ADDING : String := "adding"

/-- `session.PHASE_ACCEPTING`. -/
def PHASE_ACCEPTING : String := "accepting"

/-- `session.PHASE_RESULT`. -/
def PHASE_RESULT : String := "result"

/-- `session.AUTO_READY_TIMEOUT = 2 * 60` (seconds). -/
def AUTO_READY_TIMEOUT : Int := 2 * 60

/-- Python's `\s` class (whitespace), by code point: `\t \n \v \f \r`,
the ASCII separators 28-31, space, and the Unicode whitespace code points. -/
def isPySpace (c : Char) : Bool :=
  (9 ≤ c.toNat && c.toNat ≤ 13) || (28 ≤ c.toNat && c.toNat ≤ 32) ||
  c.toNat == 133 || c.toNat == 160 || c.toNat == 5760 ||
  (8192 ≤ c.toNat && c.toNat ≤ 8202) || c.toNat == 8232 || c.toNat == 8233 ||
  c.toNat == 8239 || c.toNat == 8287 || c.toNat == 12288

/-- The character class `[a-zA-Z0-9]` of `session.normalize_item`'s second
regex, by code point. -/
def isAsciiAlnum (c : Char) : Bool :=
  (97 ≤ c.toNat && c.toNat ≤ 122) || (65 ≤ c.toNat && c.toNat ≤ 90) ||
  (48 ≤ c.toNat && c.toNat ≤ 57)

/-- `session.normalize_item`: `re.sub(r"\s+", "", item)`, then
`re.sub(r"[^a-zA-Z0-9]", "", ...)`, then `.lower()`.  After the second
substitution only ASCII alphanumerics remain, on which Python's `.lower()`
agrees with `Char.toLower` (it adds 32 to `A`-`Z` and fixes the rest). -/
def normalize_item (item : String) : String :=
  String.mk (((item.data.filter (fun c => !(isPySpace c))).filter
    isAsciiAlnum).map Char.toLower)

/-- `session.items_equal`. -/
def items_equal (item1 item2 : String) : Bool :=
  normalize_item item1 == normalize_item item2

/-- `session.is_duplicate_item`. -/
def is_duplicate_item (new_item : String) (existing_items : List String) : Bool :=
  let new_normalized := normalize_item new_item
  if new_normalized == "" then true
  else existing_items.any (fun item => normalize_item item == new_normalized)

/-- Python `str.strip()` (used by `session.add_item`): drop leading and
trailing whitespace. -/
def pyStrip (s : String) : String :=
  String.mk (((s.data.dropWhile isPySpace).reverse.dropWhile isPySpace).reverse)

/-- One row of the `members` table, as returned by `database.get_member`. -/
structure Member where
  member_id : String
  items : List String
  is_ready : Bool
  accepted_items : List String
  is_observer : Bool
  last_seen : Int
deriving DecidableEq

/-- One row of the `sessions` table together with its member rows. -/
structure Session where
  phase : String
  creator_id : String
  last_activity : Int
  excluded_items : List String
  restart_votes : List String
  members : List Member
deriving DecidableEq

/-- `database.get_member`: `SELECT * FROM members WHERE ... fetchone()`,
the first row matching the member id. -/
def db_get_member (s : Session) (mid : String) : Option Member :=
  s.members.find? (fun m => m.member_id == mid)

/-- `database.get_active_members`: all non-observer members. -/
def db_get_active_members (s : Session) : List Member :=
  s.members.filter (fun m => !m.is_observer)

/-- `database.set_member_ready`: `UPDATE members SET is_ready, last_seen`
for rows matching the member id, plus the session `last_activity` touch. -/
def db_set_member_ready (s : Session) (mid : String) (r : Bool) (now : Int) : Session :=
  { s with
    members := s.members.map (fun m =>
      if m.member_id = mid then { m with is_ready := r, last_seen := now } else m),
    last_activity := now }

/-- `database.update_member_items`: `UPDATE members SET items, last_seen`
for rows matching the member id, plus the session `last_activity` touch. -/
def db_update_member_items (s : Session) (mid : String) (its : List String) (now : Int) :
    Session :=
  { s with
    members := s.members.map (fun m =>
      if m.member_id = mid then { m with items := its, last_seen := now } else m),
    last_activity := now }

/-- `database.reset_all_ready_status`: `UPDATE members SET is_ready = 0`. -/
def db_reset_all_ready_status (s : Session) : Session :=
  { s with members := s.members.map (fun m => { m with is_ready := false }) }

/-- `database.reset_all_accepted_items`. -/
def db_reset_all_accepted_items (s : Session) : Session :=
  { s with members := s.members.map (fun m => { m with accepted_items := [] }) }

/-- `database.clear_all_items`. -/
def db_clear_all_items (s : Session) : Session :=
  { s with members := s.members.map (fun m => { m with items := [] }) }

/-- `database.promote_observers`: `UPDATE members SET is_observer = 0`. -/
def db_promote_observers (s : Session) : Session :=
  { s with members := s.members.map (fun m => { m with is_observer := false }) }

/-- `database.set_session_phase` (also touches `last_activity`). -/
def db_set_session_phase (s : Session) (p : String) (now : Int) : Session :=
  { s with phase := p, last_activity := now }

/-- `database.get_excluded_items`. -/
def db_get_excluded_items (s : Session) : List String :=
  s.excluded_items

/-- `database.set_excluded_items`. -/
def db_set_excluded_items (s : Session) (ex : List String) : Session :=
  { s with excluded_items := ex }

/-- `database.clear_excluded_items`. -/
def db_clear_excluded_items (s : Session) : Session :=
  db_set_excluded_items s []

/-- `database.get_restart_votes`. -/
def db_get_restart_votes (s : Session) : List String :=
  s.restart_votes

/-- `database.add_restart_vote`: append the member id to the vote list only
if it is not already present. -/
def db_add_restart_vote (s : Session) (mid : String) : Session :=
  if s.restart_votes.contains mid then s
  else { s with restart_votes := s.restart_votes ++ [mid] }

/-- `database.clear_restart_votes`. -/
def db_clear_restart_votes (s : Session) : Session :=
  { s with restart_votes := [] }

/-- Result of an item-level operation: the Python dicts
`{"success": True, "items": ...}` / `{"success": False, "error": ...}`. -/
inductive OpResult where
  | ok (items : List String)
  | err (msg : String)
deriving DecidableEq

/-- Whether an `OpResult` is the success case. -/
def OpResult.success : OpResult → Bool
  | .ok _ => true
  | .err _ => false

/-- `session.add_item`. -/
def add_item (s : Session) (mid : String) (item : String) (now : Int) :
    OpResult × Session :=
  let item := pyStrip item
  if item = "" then (.err "Item cannot be empty", s)
  else
    match db_get_member s mid with
    | none => (.err "Member not found", s)
    | some member =>
      if member.is_observer then (.err "Observers cannot add items", s)
      else if member.is_ready then (.err "Cannot add items after marking ready", s)
      else if is_duplicate_item item member.items then (.err "Duplicate item", s)
      else
        let items := member.items ++ [item]
        (.ok items, db_update_member_items s mid items now)

/-- `session.remove_item` (`items.pop(item_index)` is `List.eraseIdx`). -/
def remove_item (s : Session) (mid : String) (item_index : Int) (now : Int) :
    OpResult × Session :=
  match db_get_member s mid with
  | none => (.err "Member not found", s)
  | some member =>
    if member.is_ready then (.err "Cannot remove items after marking ready", s)
    else if item_index < 0 || (member.items.length : Int) ≤ item_index then
      (.err "Invalid item index", s)
    else
      let items := member.items.eraseIdx item_index.toNat
      (.ok items, db_update_member_items s mid items now)

/-- The dict returned by `session.get_ready_status`. -/
structure ReadyStatus where
  ready : Nat
  total : Nat
  all_ready : Bool
deriving DecidableEq

/-- The loop body of `session.get_ready_status`: count a ready member, or
auto-ready (mutate) and count a member whose `last_seen` is more than
`AUTO_READY_TIMEOUT` old. -/
def ready_step (now : Int) (acc : Nat × Session) (m : Member) : Nat × Session :=
  if m.is_ready then (acc.1 + 1, acc.2)
  else if now - m.last_seen > AUTO_READY_TIMEOUT then
    (acc.1 + 1, db_set_member_ready acc.2 m.member_id true now)
  else acc

/-- `session.get_ready_status`: iterate the snapshot of active members with
`ready_step` and report the counts. -/
def get_ready_status (s : Session) (now : Int) : ReadyStatus × Session :=
  let members := db_get_active_members s
  let total := members.length
  let res := members.foldl (ready_step now) (0, s)
  ({ ready := res.1, total := total,
     all_ready := res.1 == total && !(total == 0) }, res.2)

/-- `session.check_and_advance_phase` (on an existing session; the
`get_session` miss branch is not modelled since the session is passed in). -/
def check_and_advance_phase (s : Session) (now : Int) : Option String × Session :=
  let current_phase := s.phase
  let res := get_ready_status s now
  if !res.1.all_ready then (none, res.2)
  else if current_phase = PHASE_ADDING then
    (some PHASE_ACCEPTING,
      db_set_session_phase (db_reset_all_ready_status res.2) PHASE_ACCEPTING now)
  else if current_phase = PHASE_ACCEPTING then
    (some PHASE_RESULT, db_set_session_phase res.2 PHASE_RESULT now)
  else (none, res.2)

/-- `session.fair_random_select`, with the draw
`r = random.randint(length * 10000, length * 90000)` passed in explicitly. -/
def fair_random_select (length : Int) (r : Int) : Int :=
  if length ≤ 0 then 0 else r % length

/-- The number of draws `r` in the closed range `[10000 n, 90000 n]` whose
remainder modulo `n` is `k` — the weight `fair_random_select` puts on
index `k`. -/
def hitCount (n k : Nat) : Nat :=
  ((Finset.Icc (10000 * n) (90000 * n)).filter (fun r => r % n = k)).card

/-- Update step for `item_acceptances` (a `defaultdict(set)` keyed by
normalized item): add `mid` to the set at key `norm`. -/
def addAcceptance (ia : List (String × Finset String)) (norm mid : String) :
    List (String × Finset String) :=
  match ia with
  | [] => [(norm, {mid})]
  | (k, acc) :: rest =>
    if k = norm then (k, insert mid acc) :: rest
    else (k, acc) :: addAcceptance rest norm mid

/-- Lookup in `item_acceptances`; a missing key is the empty set
(`defaultdict(set)` semantics). -/
def lookupAcc : List (String × Finset String) → String → Finset String
  | [], _ => ∅
  | (k, acc) :: rest, norm => if k = norm then acc else lookupAcc rest norm

/-- Lookup in `normalized_to_original` (a dict: first binding wins,
bindings are never overwritten). -/
def lookupOrig : List (String × String) → String → Option String
  | [], _ => none
  | (k, o) :: rest, norm => if k = norm then some o else lookupOrig rest norm

/-- The two accumulators of `session.group_items_by_acceptance`'s first
pass: `normalized_to_original` (insertion-ordered dict) and
`item_acceptances`. -/
structure GState where
  normalized_to_original : List (String × String)
  item_acceptances : List (String × Finset String)
deriving DecidableEq

/-- Processing one entry of a member's `items` list: register the original
string for its normalized key if absent, and credit the member as acceptor. -/
def procOwnItem (st : GState) (mid item : String) : GState :=
  let norm := normalize_item item
  { normalized_to_original :=
      if (lookupOrig st.normalized_to_original norm).isSome then
        st.normalized_to_original
      else st.normalized_to_original ++ [(norm, item)],
    item_acceptances := addAcceptance st.item_acceptances norm mid }

/-- Processing one entry of a member's `accepted_items` list: credit the
member as acceptor only if the normalized key is already registered. -/
def procAccItem (st : GState) (mid item : String) : GState :=
  let norm := normalize_item item
  if (lookupOrig st.normalized_to_original norm).isSome then
    { st with item_acceptances := addAcceptance st.item_acceptances norm mid }
  else st

/-- The per-member body of `group_items_by_acceptance`'s first loop: own
items first (auto-accepted), then explicitly accepted items. -/
def procMember (st : GState) (m : Member) : GState :=
  let st1 := m.items.foldl (fun st it => procOwnItem st m.member_id it) st
  m.accepted_items.foldl (fun st it => procAccItem st m.member_id it) st1

/-- Append `item` to the group keyed by the acceptor set `key`, creating the
group at the end on first use (`defaultdict(list)` with insertion-ordered
keys). -/
def addToGroup (gs : List (Finset String × List String)) (key : Finset String)
    (item : String) : List (Finset String × List String) :=
  match gs with
  | [] => [(key, [item])]
  | (k, its) :: rest =>
    if k = key then (k, its ++ [item]) :: rest
    else (k, its) :: addToGroup rest key item

/-- The body of `group_items_by_acceptance`'s second loop: skip an excluded
item, skip an item with no acceptors (unreachable in practice), otherwise
bucket the original under its exact acceptor set. -/
def buildStep (ia : List (String × Finset String)) (excluded : List String)
    (gs : List (Finset String × List String)) (p : String × String) :
    List (Finset String × List String) :=
  if excluded.any (fun ex => items_equal p.2 ex) then gs
  else
    let acceptors := lookupAcc ia p.1
    if acceptors = ∅ then gs else addToGroup gs acceptors p.2

/-- The second pass of `group_items_by_acceptance`: walk
`normalized_to_original` in insertion order, skip excluded items, and bucket
the surviving originals by their exact acceptor set. -/
def buildGroups (nto : List (String × String)) (ia : List (String × Finset String))
    (excluded : List String) : List (Finset String × List String) :=
  nto.foldl (buildStep ia excluded) []

/-- `session.group_items_by_acceptance`: the returned dict, as the
insertion-ordered list of (acceptor set, items) pairs. -/
def group_items_by_acceptance (s : Session) : List (Finset String × List String) :=
  let members := db_get_active_members s
  let excluded := db_get_excluded_items s
  let st := members.foldl procMember ⟨[], []⟩
  buildGroups st.normalized_to_original st.item_acceptances excluded

/-- The two-stage draw at the end of `session.select_item`; `r1`, `r2` are
the two `random.randint` draws.  In every reachable call the computed
indices are in bounds, so the `getD` defaults are never used. -/
def pick_from_groups (groups : List (Finset String × List String)) (r1 r2 : Int) :
    String :=
  let group_list := groups.map (fun p => p.2)
  let group_index := (fair_random_select (group_list.length : Int) r1).toNat
  let selected_group := group_list.getD group_index []
  let item_index := (fair_random_select (selected_group.length : Int) r2).toNat
  selected_group.getD item_index ""

/-- `session.select_item`. -/
def select_item (s : Session) (r1 r2 : Int) : Option String × Session :=
  let groups := group_items_by_acceptance s
  if groups = [] then
    let s1 := db_clear_excluded_items s
    let groups1 := group_items_by_acceptance s1
    if groups1 = [] then (none, s1)
    else (some (pick_from_groups groups1 r1 r2), s1)
  else (some (pick_from_groups groups r1 r2), s)

/-- `session.reroll`. -/
def reroll (s : Session) (r1 r2 : Int) : Option String × Session :=
  select_item s r1 r2

/-- `session.roll_next`. -/
def roll_next (s : Session) (current_item : String) (r1 r2 : Int) :
    Option String × Session :=
  let excluded := db_get_excluded_items s
  let s1 :=
    if excluded.any (fun ex => items_equal current_item ex) then s
    else db_set_excluded_items s (excluded ++ [current_item])
  select_item s1 r1 r2

/-- The dict returned by `session.vote_restart`. -/
structure VoteStatus where
  votes : Nat
  total : Nat
  all_voted : Bool
deriving DecidableEq

/-- `session.vote_restart`. -/
def vote_restart (s : Session) (mid : String) : VoteStatus × Session :=
  let s1 := db_add_restart_vote s mid
  let votes := db_get_restart_votes s1
  let members := db_get_active_members s1
  let all_voted := members.all (fun m => votes.contains m.member_id)
  ({ votes := votes.length, total := members.length, all_voted := all_voted }, s1)

/-- `session.start_fresh`. -/
def start_fresh (s : Session) (now : Int) : Session :=
  db_set_session_phase
    (db_promote_observers
      (db_clear_restart_votes
        (db_clear_excluded_items
          (db_reset_all_accepted_items
            (db_reset_all_ready_status
              (db_clear_all_items s))))))
    PHASE_ADDING now

/-! ### Character-level lemmas for the normalizer -/

/-- Output alphabet of `normalize_item`: ASCII lowercase letters and digits. -/
def isLowerAlnum (c : Char) : Bool :=
  (97 ≤ c.toNat && c.toNat ≤ 122) || (48 ≤ c.toNat && c.toNat ≤ 57)

theorem toNat_ofNat_valid (n : Nat) (h : n.isValidChar) : (Char.ofNat n).toNat = n := by
  unfold Char.ofNat
  rw [dif_pos h]
  rfl

theorem toNat_toLower (c : Char) :
    (Char.toLower c).toNat =
      if 65 ≤ c.toNat ∧ c.toNat ≤ 90 then c.toNat + 32 else c.toNat := by
  unfold Char.toLower
  by_cases h : 65 ≤ c.toNat ∧ c.toNat ≤ 90
  · rw [if_pos h, if_pos (by omega : c.toNat ≥ 65 ∧ c.toNat ≤ 90)]
    exact toNat_ofNat_valid _ (Or.inl (by omega))
  · rw [if_neg h, if_neg (by omega : ¬(c.toNat ≥ 65 ∧ c.toNat ≤ 90))]

theorem toLower_eq_self (c : Char) (h : ¬(65 ≤ c.toNat ∧ c.toNat ≤ 90)) :
    Char.toLower c = c := by
  unfold Char.toLower
  rw [if_neg (by omega : ¬(c.toNat ≥ 65 ∧ c.toNat ≤ 90))]

theorem isLowerAlnum_toLower (c : Char) (h : isAsciiAlnum c = true) :
    isLowerAlnum (Char.toLower c) = true := by
  simp only [isAsciiAlnum, Bool.or_eq_true, Bool.and_eq_true, decide_eq_true_eq] at h
  simp only [isLowerAlnum, Bool.or_eq_true, Bool.and_eq_true, decide_eq_true_eq]
  have ht := toNat_toLower c
  split at ht <;> omega

theorem isLowerAlnum_fixed (c : Char) (h : isLowerAlnum c = true) :
    Char.toLower c = c := by
  simp only [isLowerAlnum, Bool.or_eq_true, Bool.and_eq_true, decide_eq_true_eq] at h
  exact toLower_eq_self c (by omega)

theorem isLowerAlnum_not_space (c : Char) (h : isLowerAlnum c = true) :
    isPySpace c = false := by
  simp only [isLowerAlnum, Bool.or_eq_true, Bool.and_eq_true, decide_eq_true_eq] at h
  simp only [isPySpace, Bool.or_eq_false_iff, Bool.and_eq_false_iff,
    decide_eq_false_iff_not, not_le, beq_eq_false_iff_ne, ne_eq]
  omega

theorem isLowerAlnum_alnum (c : Char) (h : isLowerAlnum c = true) :
    isAsciiAlnum c = true := by
  simp only [isLowerAlnum, Bool.or_eq_true, Bool.and_eq_true, decide_eq_true_eq] at h
  simp only [isAsciiAlnum, Bool.or_eq_true, Bool.and_eq_true, decide_eq_true_eq]
  omega

/-- Every character of a normalized item lies in the output alphabet
`[a-z0-9]`. -/
theorem mem_normalize_item_lowerAlnum (s : String) :
    ∀ c ∈ (normalize_item s).data, isLowerAlnum c = true := by
  intro c hc
  unfold normalize_item at hc
  simp only [List.mem_map, List.mem_filter] at hc
  obtain ⟨c', ⟨_, halnum⟩, rfl⟩ := hc
  exact isLowerAlnum_toLower c' halnum

theorem map_toLower_fixed (l : List Char) (h : ∀ c ∈ l, isLowerAlnum c = true) :
    l.map Char.toLower = l := by
  induction l with
  | nil => rfl
  | cons a t ih =>
    simp only [List.map_cons, List.cons.injEq]
    exact ⟨isLowerAlnum_fixed a (h a (by simp)),
      ih (fun c hc => h c (by simp [hc]))⟩

theorem filter_eq_self_of_lowerAlnum (l : List Char)
    (h : ∀ c ∈ l, isLowerAlnum c = true) :
    (l.filter (fun c => !(isPySpace c))).filter isAsciiAlnum = l := by
  have h1 : l.filter (fun c => !(isPySpace c)) = l :=
    List.filter_eq_self.mpr (fun c hc => by
      simp [isLowerAlnum_not_space c (h c hc)])
  rw [h1]
  exact List.filter_eq_self.mpr (fun c hc => isLowerAlnum_alnum c (h c hc))

/-- `normalize_item` is idempotent. -/
theorem normalize_item_idem (s : String) :
    normalize_item (normalize_item s) = normalize_item s := by
  have hmem := mem_normalize_item_lowerAlnum s
  conv_lhs => rw [normalize_item]
  rw [filter_eq_self_of_lowerAlnum _ hmem, map_toLower_fixed _ hmem]

/-- The whitespace pre-pass of `normalize_item` is subsumed by the
alphanumeric filter: non-alphanumeric characters (whitespace included) are
deleted outright. -/
theorem normalize_item_deletes (s : String) :
    normalize_item s = String.mk ((s.data.filter isAsciiAlnum).map Char.toLower) := by
  unfold normalize_item
  congr 1
  rw [List.filter_filter]
  have heq : ∀ c ∈ s.data, (isAsciiAlnum c && !(isPySpace c)) = isAsciiAlnum c := by
    intro c _
    by_cases h : isAsciiAlnum c = true
    · have hs : isPySpace c = false := by
        simp only [isAsciiAlnum, Bool.or_eq_true, Bool.and_eq_true,
          decide_eq_true_eq] at h
        simp only [isPySpace, Bool.or_eq_false_iff, Bool.and_eq_false_iff,
          decide_eq_false_iff_not, not_le, beq_eq_false_iff_ne, ne_eq]
        omega
      simp [h, hs]
    · simp [Bool.eq_false_iff.mpr h]
  rw [List.filter_congr heq]

/-! ### C8 and C10: normalizer properties -/

/-- C8: `normalize_item` is idempotent, and case-, whitespace- and
punctuation-insensitive (`normalize_item "Pizza!" = normalize_item " pizza "
= "pizza"`); consequently `items_equal` is reflexive and symmetric for all
strings. -/
theorem C8_normalize_idempotent_and_insensitive :
    (∀ x : String, normalize_item (normalize_item x) = normalize_item x) ∧
    normalize_item "Pizza!" = normalize_item " pizza " ∧
    normalize_item "Pizza!" = "pizza" ∧
    (∀ a : String, items_equal a a = true) ∧
    (∀ a b : String, items_equal a b = items_equal b a) := by
  refine ⟨normalize_item_idem, by decide, by decide, ?_, ?_⟩
  · intro a
    simp [items_equal]
  · intro a b
    simp only [items_equal]
    by_cases h : normalize_item a = normalize_item b
    · rw [h]
    · rw [beq_eq_false_iff_ne.mpr h, beq_eq_false_iff_ne.mpr (Ne.symm h)]

/-- C10: every character of `normalize_item`'s output is an ASCII lowercase
letter or digit; characters outside `[a-zA-Z0-9]` (non-ASCII letters such as
umlauts included) are deleted rather than transliterated, so "Döner" and
"Dner" are duplicates of each other under `is_duplicate_item`. -/
theorem C10_normalize_deletes_non_ascii :
    (∀ s : String, ∀ c ∈ (normalize_item s).data,
      (97 ≤ c.toNat ∧ c.toNat ≤ 122) ∨ (48 ≤ c.toNat ∧ c.toNat ≤ 57)) ∧
    (∀ s : String,
      normalize_item s = String.mk ((s.data.filter isAsciiAlnum).map Char.toLower)) ∧
    normalize_item "Döner" = "dner" ∧
    normalize_item "Döner" = normalize_item "Dner" ∧
    is_duplicate_item "Döner" ["Dner"] = true := by
  refine ⟨?_, normalize_item_deletes, by decide, by decide, by decide⟩
  intro s c hc
  have h := mem_normalize_item_lowerAlnum s c hc
  simp only [isLowerAlnum, Bool.or_eq_true, Bool.and_eq_true,
    decide_eq_true_eq] at h
  exact h

/-- C10 witness: the theorem applied to the concrete input "Döner" and its
output character 'd'. -/
theorem C10_normalize_deletes_non_ascii_witness :
    'd' ∈ (normalize_item "Döner").data ∧
    ((97 ≤ 'd'.toNat ∧ 'd'.toNat ≤ 122) ∨ (48 ≤ 'd'.toNat ∧ 'd'.toNat ≤ 57)) :=
  ⟨by decide, C10_normalize_deletes_non_ascii.1 "Döner" 'd' (by decide)⟩

/-! ### C3: the fair-random-select primitive -/

theorem filter_mod_eq_image (n k : Nat) (hn : 1 ≤ n) (hk : k < n) :
    (Finset.Icc (10000 * n) (90000 * n)).filter (fun r => r % n = k) =
      (Finset.Icc 10000 (if k = 0 then 90000 else 89999)).image
        (fun q => n * q + k) := by
  ext r
  simp only [Finset.mem_filter, Finset.mem_image, Finset.mem_Icc]
  constructor
  · rintro ⟨⟨hlo, hhi⟩, hmod⟩
    refine ⟨r / n, ⟨?_, ?_⟩, ?_⟩
    · by_contra hq
      push_neg at hq
      have h1 : n * (r / n + 1) ≤ n * 10000 := Nat.mul_le_mul_left n (by omega)
      have h2 : n * (r / n + 1) = n * (r / n) + n := by ring
      have h3 : n * 10000 = 10000 * n := Nat.mul_comm _ _
      have h4 : n * (r / n) + r % n = r := Nat.div_add_mod r n
      omega
    · by_cases hk0 : k = 0
      · rw [if_pos hk0]
        by_contra hq
        push_neg at hq
        have h1 : n * 90001 ≤ n * (r / n) := Nat.mul_le_mul_left n (by omega)
        have h2 : n * 90001 = 90000 * n + n := by ring
        have h4 : n * (r / n) + r % n = r := Nat.div_add_mod r n
        omega
      · rw [if_neg hk0]
        by_contra hq
        push_neg at hq
        have h1 : n * 90000 ≤ n * (r / n) := Nat.mul_le_mul_left n (by omega)
        have h2 : n * 90000 = 90000 * n := Nat.mul_comm _ _
        have h4 : n * (r / n) + r % n = r := Nat.div_add_mod r n
        omega
    · have h4 : n * (r / n) + r % n = r := Nat.div_add_mod r n
      omega
  · rintro ⟨q, ⟨hqlo, hqhi⟩, rfl⟩
    have hmod : (n * q + k) % n = k := by
      rw [Nat.mul_add_mod]
      exact Nat.mod_eq_of_lt hk
    refine ⟨⟨?_, ?_⟩, hmod⟩
    · have h1 : n * 10000 ≤ n * q := Nat.mul_le_mul_left n hqlo
      have h2 : n * 10000 = 10000 * n := Nat.mul_comm _ _
      omega
    · by_cases hk0 : k = 0
      · rw [if_pos hk0] at hqhi
        have h1 : n * q ≤ n * 90000 := Nat.mul_le_mul_left n hqhi
        have h2 : n * 90000 = 90000 * n := Nat.mul_comm _ _
        omega
      · rw [if_neg hk0] at hqhi
        have h1 : n * (q + 1) ≤ n * 90000 := Nat.mul_le_mul_left n (by omega)
        have h2 : n * (q + 1) = n * q + n := by ring
        have h3 : n * 90000 = 90000 * n := Nat.mul_comm _ _
        omega

/-- The exact weight `fair_random_select` puts on each index: index `0` is
hit by `80001` draws in `[10000 n, 90000 n]`, every other index by `80000`. -/
theorem hitCount_formula (n k : Nat) (hn : 1 ≤ n) (hk : k < n) :
    hitCount n k = if k = 0 then 80001 else 80000 := by
  unfold hitCount
  rw [filter_mod_eq_image n k hn hk]
  rw [Finset.card_image_of_injective _ (fun a b hab => by
    have : n * a = n * b := by omega
    exact Nat.eq_of_mul_eq_mul_left (by omega) this)]
  rw [Nat.card_Icc]
  by_cases hk0 : k = 0
  · rw [if_pos hk0, if_pos hk0]
  · rw [if_neg hk0, if_neg hk0]

/-- C3 counterexample: the indices of `[0, 2)` are NOT attained by exactly
the same number of draws from `[10000·2, 90000·2]` — index 0 is attained
once more than index 1. -/
theorem C3_counterexample : hitCount 2 0 ≠ hitCount 2 1 := by
  rw [hitCount_formula 2 0 (by decide) (by decide),
    hitCount_formula 2 1 (by decide) (by decide)]
  decide

/-- C3 (amended): for `n ≥ 1`, `fair_random_select n` returns `r mod n` for
the draw `r` from `[10000·n, 90000·n]`, an index in `[0, n)`; the draw is
only near-uniform, not exactly uniform: index `0` is attained by `80001`
values of `r` in that range and every other index by `80000`; for `n ≤ 0`
the function returns `0`. -/
theorem C3_fair_random_select (n k : Nat) (hn : 1 ≤ n) (hk : k < n) :
    (∀ r : Int, fair_random_select (n : Int) r = r % (n : Int)) ∧
    (∀ r : Int, 10000 * (n : Int) ≤ r → r ≤ 90000 * (n : Int) →
      0 ≤ fair_random_select (n : Int) r ∧ fair_random_select (n : Int) r < (n : Int)) ∧
    hitCount n k = (if k = 0 then 80001 else 80000) ∧
    (∀ len r : Int, len ≤ 0 → fair_random_select len r = 0) := by
  have hnpos : (0 : Int) < (n : Int) := by exact_mod_cast hn
  have heq : ∀ r : Int, fair_random_select (n : Int) r = r % (n : Int) := by
    intro r
    unfold fair_random_select
    rw [if_neg (by omega)]
  refine ⟨heq, ?_, hitCount_formula n k hn hk, ?_⟩
  · intro r _ _
    rw [heq r]
    exact ⟨Int.emod_nonneg r (by omega), Int.emod_lt_of_pos r hnpos⟩
  · intro len r hlen
    unfold fair_random_select
    rw [if_pos hlen]

/-- C3 witness: the amended theorem applied at `n = 2`, `k = 1`. -/
theorem C3_fair_random_select_witness :
    hitCount 2 1 = (if 1 = 0 then 80001 else 80000) :=
  (C3_fair_random_select 2 1 (by decide) (by decide)).2.2.1

/-! ### C6: restart voting and start_fresh -/

/-- A session with three active members used to instantiate the unanimity
scenario of C6. -/
def sessionThreeVoters : Session :=
  ⟨PHASE_RESULT, "x", 0, ["old"], [],
    [⟨"x", ["a"], true, [], false, 0⟩,
     ⟨"y", ["b"], true, ["a"], false, 0⟩,
     ⟨"z", [], true, [], true, 0⟩,
     ⟨"w", ["c"], true, [], false, 0⟩]⟩

theorem db_add_restart_vote_contains (s : Session) (mid : String) :
    (db_add_restart_vote s mid).restart_votes.contains mid = true := by
  unfold db_add_restart_vote
  split
  · assumption
  · simp

theorem db_add_restart_vote_of_contains (s : Session) (mid : String)
    (h : s.restart_votes.contains mid = true) : db_add_restart_vote s mid = s := by
  unfold db_add_restart_vote
  rw [if_pos h]

/-- C6: `vote_restart` is idempotent per member and reports `all_voted` true
iff every active member's id is in the vote set (with 3 active members, 2
votes yield false and the 3rd yields true); `start_fresh` clears every
member's items, ready flag and accepted items, clears excluded items and
restart votes, demotes every observer, and sets the phase to `adding`. -/
theorem C6_restart_unanimity :
    (∀ (s : Session) (mid : String),
      vote_restart (vote_restart s mid).2 mid = vote_restart s mid) ∧
    (∀ (s : Session) (mid : String),
      ((vote_restart s mid).1.all_voted = true ↔
        ∀ m ∈ db_get_active_members (vote_restart s mid).2,
          m.member_id ∈ (vote_restart s mid).2.restart_votes)) ∧
    (vote_restart (vote_restart sessionThreeVoters "x").2 "y").1.all_voted = false ∧
    (vote_restart (vote_restart (vote_restart sessionThreeVoters "x").2 "y").2
      "w").1.all_voted = true ∧
    (∀ (s : Session) (now : Int),
      (start_fresh s now).phase = PHASE_ADDING ∧
      (start_fresh s now).excluded_items = [] ∧
      (start_fresh s now).restart_votes = [] ∧
      ∀ m ∈ (start_fresh s now).members,
        m.items = [] ∧ m.is_ready = false ∧ m.accepted_items = [] ∧
          m.is_observer = false) := by
  refine ⟨?_, ?_, by decide, by decide, ?_⟩
  · intro s mid
    have h2 : db_add_restart_vote (db_add_restart_vote s mid) mid =
        db_add_restart_vote s mid :=
      db_add_restart_vote_of_contains _ _ (db_add_restart_vote_contains s mid)
    unfold vote_restart
    rw [h2]
  · intro s mid
    unfold vote_restart
    simp only [List.all_eq_true, db_get_restart_votes, db_get_active_members,
      List.contains, List.elem_iff]
  · intro s now
    refine ⟨rfl, rfl, rfl, ?_⟩
    intro m hm
    simp only [start_fresh, db_set_session_phase, db_promote_observers,
      db_clear_restart_votes, db_clear_excluded_items, db_set_excluded_items,
      db_reset_all_accepted_items, db_reset_all_ready_status,
      db_clear_all_items, List.map_map, List.mem_map] at hm
    obtain ⟨m0, _, rfl⟩ := hm
    simp [Function.comp]

/-- C6 witness: the theorem applied to a concrete session. -/
theorem C6_restart_unanimity_witness :
    (start_fresh sessionThreeVoters 0).phase = PHASE_ADDING :=
  (C6_restart_unanimity.2.2.2.2 sessionThreeVoters 0).1

/-! ### C4: readiness status -/

theorem ready_fold_count (now : Int) (l : List Member) (c : Nat) (s0 : Session) :
    (l.foldl (ready_step now) (c, s0)).1 =
      c + l.countP (fun m =>
        m.is_ready || decide (AUTO_READY_TIMEOUT < now - m.last_seen)) := by
  induction l generalizing c s0 with
  | nil => simp
  | cons a t ih =>
    rw [List.foldl_cons, List.countP_cons]
    by_cases h1 : a.is_ready = true
    · rw [show ready_step now (c, s0) a = (c + 1, s0) by
        unfold ready_step; rw [if_pos h1]]
      rw [ih]
      simp [h1]
      omega
    · by_cases h2 : AUTO_READY_TIMEOUT < now - a.last_seen
      · rw [show ready_step now (c, s0) a =
            (c + 1, db_set_member_ready s0 a.member_id true now) by
          unfold ready_step
          rw [if_neg (by simp [h1]), if_pos h2]]
        rw [ih]
        simp [h1, h2]
        omega
      · rw [show ready_step now (c, s0) a = (c, s0) by
          unfold ready_step
          rw [if_neg (by simp [h1]), if_neg h2]]
        rw [ih]
        simp [h1, h2]

theorem set_member_ready_all_ready (s0 : Session) (mid : String) (now : Int) :
    ∀ m' ∈ (db_set_member_ready s0 mid true now).members,
      m'.member_id = mid → m'.is_ready = true := by
  intro m' hm' hid
  unfold db_set_member_ready at hm'
  simp only [List.mem_map] at hm'
  obtain ⟨m0, _, rfl⟩ := hm'
  by_cases h : m0.member_id = mid
  · rw [if_pos h]
  · rw [if_neg h] at hid ⊢
    exact absurd hid h

theorem ready_step_preserves_ready (now : Int) (a : Member) (acc : Nat × Session)
    (mid : String)
    (h : ∀ m' ∈ acc.2.members, m'.member_id = mid → m'.is_ready = true) :
    ∀ m' ∈ (ready_step now acc a).2.members, m'.member_id = mid →
      m'.is_ready = true := by
  unfold ready_step
  split
  · exact h
  split
  · intro m' hm' hid
    unfold db_set_member_ready at hm'
    simp only [List.mem_map] at hm'
    obtain ⟨m0, hm0, rfl⟩ := hm'
    by_cases hcase : m0.member_id = a.member_id
    · rw [if_pos hcase]
    · rw [if_neg hcase] at hid ⊢
      exact h m0 hm0 hid
  · exact h

theorem ready_fold_preserves_ready (now : Int) (l : List Member)
    (acc : Nat × Session) (mid : String)
    (h : ∀ m' ∈ acc.2.members, m'.member_id = mid → m'.is_ready = true) :
    ∀ m' ∈ (l.foldl (ready_step now) acc).2.members, m'.member_id = mid →
      m'.is_ready = true := by
  induction l generalizing acc with
  | nil => exact h
  | cons a t ih =>
    rw [List.foldl_cons]
    exact ih _ (ready_step_preserves_ready now a acc mid h)

theorem ready_fold_establishes_ready (now : Int) (l : List Member)
    (acc : Nat × Session) (m : Member) (hm : m ∈ l) (hready : m.is_ready = false)
    (hstale : AUTO_READY_TIMEOUT < now - m.last_seen) :
    ∀ m' ∈ (l.foldl (ready_step now) acc).2.members,
      m'.member_id = m.member_id → m'.is_ready = true := by
  induction l generalizing acc with
  | nil => cases hm
  | cons a t ih =>
    rw [List.foldl_cons]
    rcases List.mem_cons.mp hm with rfl | hmem
    · apply ready_fold_preserves_ready
      rw [show ready_step now acc m =
          (acc.1 + 1, db_set_member_ready acc.2 m.member_id true now) by
        unfold ready_step
        rw [if_neg (by simp [hready]), if_pos hstale]]
      exact set_member_ready_all_ready acc.2 m.member_id now
    · exact ih _ hmem

/-- C4: `get_ready_status` over the active members counts exactly the
members that are ready or have exceeded the 2-minute auto-ready timeout,
mutates every stale non-ready active member's stored flag to ready, and
reports `all_ready` true iff `ready = total` and `total > 0` (never on an
empty active set). -/
theorem C4_get_ready_status (s : Session) (now : Int) :
    ((get_ready_status s now).1.total = (db_get_active_members s).length) ∧
    ((get_ready_status s now).1.ready =
      (db_get_active_members s).countP (fun m =>
        m.is_ready || decide (AUTO_READY_TIMEOUT < now - m.last_seen))) ∧
    ((get_ready_status s now).1.all_ready = true ↔
      ((get_ready_status s now).1.ready = (get_ready_status s now).1.total ∧
        0 < (get_ready_status s now).1.total)) ∧
    (db_get_active_members s = [] → (get_ready_status s now).1.all_ready = false) ∧
    (∀ m ∈ db_get_active_members s, m.is_ready = false →
      AUTO_READY_TIMEOUT < now - m.last_seen →
      ∀ m' ∈ (get_ready_status s now).2.members, m'.member_id = m.member_id →
        m'.is_ready = true) := by
  refine ⟨rfl, ?_, ?_, ?_, ?_⟩
  · have h := ready_fold_count now (db_get_active_members s) 0 s
    simpa using h
  · simp only [get_ready_status, Bool.and_eq_true, beq_iff_eq, Bool.not_eq_eq_eq_not,
      Bool.not_true, beq_eq_false_iff_ne, ne_eq]
    omega
  · intro hempty
    simp [get_ready_status, hempty]
  · intro m hm hready hstale
    exact ready_fold_establishes_ready now (db_get_active_members s) (0, s) m hm
      hready hstale

/-- C4 witness: a concrete two-member session in which member "q" is stale
and gets auto-readied. -/
theorem C4_get_ready_status_witness :
    (⟨"q", [], false, [], false, 0⟩ : Member) ∈
      db_get_active_members
        ⟨PHASE_ADDING, "p", 0, [], [],
          [⟨"p", [], true, [], false, 0⟩, ⟨"q", [], false, [], false, 0⟩]⟩ ∧
    (⟨"q", [], true, [], false, 200⟩ : Member).is_ready = true := by
  refine ⟨by decide, ?_⟩
  have h := (C4_get_ready_status
    ⟨PHASE_ADDING, "p", 0, [], [],
      [⟨"p", [], true, [], false, 0⟩, ⟨"q", [], false, [], false, 0⟩]⟩ 200).2.2.2.2
  exact h ⟨"q", [], false, [], false, 0⟩ (by decide) rfl (by decide)
    ⟨"q", [], true, [], false, 200⟩ (by decide) rfl

/-! ### C2: phase advancement -/

theorem ready_fold_phase (now : Int) (l : List Member) (acc : Nat × Session) :
    (l.foldl (ready_step now) acc).2.phase = acc.2.phase := by
  induction l generalizing acc with
  | nil => rfl
  | cons a t ih =>
    rw [List.foldl_cons, ih]
    unfold ready_step
    split
    · rfl
    split
    · rfl
    · rfl

theorem get_ready_status_phase (s : Session) (now : Int) :
    (get_ready_status s now).2.phase = s.phase :=
  ready_fold_phase now (db_get_active_members s) (0, s)

/-- A two-member session in the adding phase where member "m1" is stale
(last seen at time 0, checked at time 200) and "m2" is fresh and not
ready. -/
def sessionStaleMixed : Session :=
  ⟨PHASE_ADDING, "m1", 0, [], [],
    [⟨"m1", [], false, [], false, 0⟩, ⟨"m2", [], false, [], false, 190⟩]⟩

/-- C2 counterexample: `check_and_advance_phase` returns `none` here (not
all ready) but does NOT leave the session unchanged — the readiness check
auto-readies the stale member "m1" as a side effect. -/
theorem C2_counterexample :
    (check_and_advance_phase sessionStaleMixed 200).1 = none ∧
    (check_and_advance_phase sessionStaleMixed 200).2 ≠ sessionStaleMixed := by
  decide

/-- C2 (amended): `check_and_advance_phase` returns `none` whenever
readiness is not `allReady` — though the embedded readiness check may still
auto-ready stale members, so the session is not necessarily unchanged and
only the phase is guaranteed to be preserved; when `allReady` holds in
phase `adding` it resets every member's ready flag and moves to
`accepting`; when `allReady` holds in `accepting` it moves to `result`
without touching the members (readiness flags are not reset); in phase
`result` the phase is never changed. -/
theorem C2_check_and_advance_phase (s : Session) (now : Int) :
    ((get_ready_status s now).1.all_ready = false →
      check_and_advance_phase s now = (none, (get_ready_status s now).2) ∧
      (check_and_advance_phase s now).2.phase = s.phase) ∧
    ((get_ready_status s now).1.all_ready = true → s.phase = PHASE_ADDING →
      (check_and_advance_phase s now).1 = some PHASE_ACCEPTING ∧
      (check_and_advance_phase s now).2.phase = PHASE_ACCEPTING ∧
      ∀ m ∈ (check_and_advance_phase s now).2.members, m.is_ready = false) ∧
    ((get_ready_status s now).1.all_ready = true → s.phase = PHASE_ACCEPTING →
      (check_and_advance_phase s now).1 = some PHASE_RESULT ∧
      (check_and_advance_phase s now).2.phase = PHASE_RESULT ∧
      (check_and_advance_phase s now).2.members =
        (get_ready_status s now).2.members) ∧
    (s.phase = PHASE_RESULT →
      (check_and_advance_phase s now).1 = none ∧
      (check_and_advance_phase s now).2.phase = PHASE_RESULT) := by
  refine ⟨?_, ?_, ?_, ?_⟩
  · intro hall
    simp only [check_and_advance_phase]
    rw [hall]
    exact ⟨rfl, get_ready_status_phase s now⟩
  · intro hall hph
    have hstep : check_and_advance_phase s now =
        (some PHASE_ACCEPTING,
          db_set_session_phase
            (db_reset_all_ready_status (get_ready_status s now).2)
            PHASE_ACCEPTING now) := by
      simp only [check_and_advance_phase]
      rw [hall, hph]
      simp
    rw [hstep]
    refine ⟨rfl, rfl, ?_⟩
    intro m hm
    obtain ⟨m0, _, rfl⟩ := List.mem_map.mp hm
    rfl
  · intro hall hph
    have hstep : check_and_advance_phase s now =
        (some PHASE_RESULT,
          db_set_session_phase (get_ready_status s now).2 PHASE_RESULT now) := by
      simp only [check_and_advance_phase]
      rw [hall, hph]
      simp
      intro h
      exact absurd h (by decide)
    rw [hstep]
    exact ⟨rfl, rfl, rfl⟩
  · intro hph
    have hstep : check_and_advance_phase s now =
        (if (get_ready_status s now).1.all_ready then
          (none, (get_ready_status s now).2)
        else (none, (get_ready_status s now).2)) := by
      simp only [check_and_advance_phase]
      rw [hph]
      simp
      intro _
      rw [if_neg (by decide : ¬(PHASE_RESULT = PHASE_ADDING)),
        if_neg (by decide : ¬(PHASE_RESULT = PHASE_ACCEPTING))]
    rw [hstep]
    have hphase : (get_ready_status s now).2.phase = PHASE_RESULT := by
      rw [get_ready_status_phase s now, hph]
    split
    · exact ⟨rfl, hphase⟩
    · exact ⟨rfl, hphase⟩

/-- C2 witness: a one-member all-ready session in the adding phase
advances to accepting. -/
theorem C2_check_and_advance_phase_witness :
    (check_and_advance_phase
      ⟨PHASE_ADDING, "p", 0, [], [], [⟨"p", [], true, [], false, 0⟩]⟩ 0).1 =
      some PHASE_ACCEPTING :=
  ((C2_check_and_advance_phase
    ⟨PHASE_ADDING, "p", 0, [], [], [⟨"p", [], true, [], false, 0⟩]⟩ 0).2.1
    (by decide) rfl).1

/-! ### C7 and C9: adding and removing items -/

theorem filter_dropWhile_not (l : List Char) :
    ((l.dropWhile isPySpace).filter (fun c => !(isPySpace c))) =
      l.filter (fun c => !(isPySpace c)) := by
  induction l with
  | nil => rfl
  | cons a t ih =>
    rw [List.dropWhile_cons]
    by_cases h : isPySpace a = true
    · rw [if_pos h, ih, List.filter_cons, if_neg (by simp [h])]
    · rw [if_neg h]

theorem pyStrip_filter (x : String) :
    (pyStrip x).data.filter (fun c => !(isPySpace c)) =
      x.data.filter (fun c => !(isPySpace c)) := by
  show ((((x.data.dropWhile isPySpace).reverse.dropWhile
      isPySpace).reverse).filter (fun c => !(isPySpace c))) = _
  rw [List.filter_reverse, filter_dropWhile_not, List.filter_reverse,
    List.reverse_reverse, filter_dropWhile_not]

/-- Stripping leading/trailing whitespace does not change the normalized
key. -/
theorem normalize_item_pyStrip (x : String) :
    normalize_item (pyStrip x) = normalize_item x := by
  unfold normalize_item
  rw [pyStrip_filter]

theorem is_duplicate_item_pyStrip (x : String) (l : List String) :
    is_duplicate_item (pyStrip x) l = is_duplicate_item x l := by
  unfold is_duplicate_item
  rw [normalize_item_pyStrip]

/-- An all-whitespace input (empty after `strip`) has an empty normalized
key. -/
theorem normalize_item_of_pyStrip_empty (x : String) (h : pyStrip x = "") :
    normalize_item x = "" := by
  have hd : (pyStrip x).data = [] := by rw [h]
  have hfilter : x.data.filter (fun c => !(isPySpace c)) = [] := by
    rw [← pyStrip_filter, hd]
    rfl
  unfold normalize_item
  rw [hfilter]
  rfl

/-- A one-member session with an empty item list. -/
def sessionOneEmpty : Session :=
  ⟨PHASE_ADDING, "A", 0, [], [], [⟨"A", [], false, [], false, 0⟩]⟩

/-- C7 counterexample: adding " Tea " succeeds but stores "Tea" — the
leading/trailing spacing of the text as passed in is NOT preserved, so the
stored list is not the prior list with the text appended verbatim. -/
theorem C7_counterexample :
    (add_item sessionOneEmpty "A" " Tea " 5).1 = OpResult.ok ["Tea"] ∧
    OpResult.ok ["Tea"] ≠ OpResult.ok (([] : List String) ++ [" Tea "]) := by
  decide

/-- C7 (amended): a successful `add_item` stores the prior list with the
STRIPPED text appended (interior casing and spacing preserved; leading and
trailing whitespace removed), and every other member's row is unchanged. -/
theorem C7_add_item_appends_stripped (s : Session) (mid text : String) (now : Int)
    (items : List String) (s2 : Session)
    (h : add_item s mid text now = (OpResult.ok items, s2)) :
    ∃ member, db_get_member s mid = some member ∧
      items = member.items ++ [pyStrip text] ∧
      s2.members = s.members.map (fun m =>
        if m.member_id = mid then { m with items := items, last_seen := now }
        else m) ∧
      ∀ m ∈ s.members, m.member_id ≠ mid → m ∈ s2.members := by
  simp only [add_item] at h
  by_cases hstrip : pyStrip text = ""
  · rw [if_pos hstrip] at h
    simp at h
  · rw [if_neg hstrip] at h
    cases hm : db_get_member s mid with
    | none =>
      simp only [hm] at h
      simp at h
    | some member =>
      simp only [hm] at h
      split_ifs at h with h1 h2 h3
      · simp at h
      · simp at h
      · simp at h
      · simp only [Prod.mk.injEq, OpResult.ok.injEq] at h
        obtain ⟨h4, h5⟩ := h
        refine ⟨member, rfl, h4.symm, ?_, ?_⟩
        · rw [← h5, h4]
          rfl
        · intro m hmem hne
          rw [← h5]
          unfold db_update_member_items
          simp only [List.mem_map]
          exact ⟨m, hmem, by rw [if_neg hne]⟩

/-- C7 witness: the amended theorem applied to the concrete " Tea "
insertion. -/
theorem C7_add_item_appends_stripped_witness :
    ["Tea"] = ([] : List String) ++ [pyStrip " Tea "] := by
  obtain ⟨member, hm, hitems, _, _⟩ :=
    C7_add_item_appends_stripped sessionOneEmpty "A" " Tea " 5 ["Tea"]
      ⟨PHASE_ADDING, "A", 5, [], [], [⟨"A", ["Tea"], false, [], false, 5⟩]⟩
      (by decide)
  have h0 : db_get_member sessionOneEmpty "A" =
      some ⟨"A", [], false, [], false, 0⟩ := by decide
  rw [h0] at hm
  injection hm with h2
  rw [← h2] at hitems
  exact hitems

/-- C9: `add_item` fails exactly when the member row is missing, the member
is an observer or already ready, or the item's normalized key is empty or a
duplicate of one of that member's items; the session phase is never
consulted — `add_item` and `remove_item` behave identically under any
phase, and a non-ready active member can add items in the `accepting` or
`result` phase. -/
theorem C9_add_item_no_phase_check (s : Session) (p mid text : String)
    (now idx : Int) :
    ((add_item s mid text now).1.success = true ↔
      ∃ m, db_get_member s mid = some m ∧ m.is_observer = false ∧
        m.is_ready = false ∧ is_duplicate_item text m.items = false) ∧
    (add_item { s with phase := p } mid text now =
      ((add_item s mid text now).1,
        { (add_item s mid text now).2 with phase := p })) ∧
    (remove_item { s with phase := p } mid idx now =
      ((remove_item s mid idx now).1,
        { (remove_item s mid idx now).2 with phase := p })) ∧
    (add_item ⟨PHASE_ACCEPTING, "A", 0, [], [], [⟨"A", [], false, [], false, 0⟩]⟩
      "A" "Tea" 5).1.success = true ∧
    (add_item ⟨PHASE_RESULT, "A", 0, [], [], [⟨"A", [], false, [], false, 0⟩]⟩
      "A" "Tea" 5).1.success = true := by
  refine ⟨?_, ?_, ?_, by decide, by decide⟩
  · by_cases hstrip : pyStrip text = ""
    · have hval : add_item s mid text now = (.err "Item cannot be empty", s) := by
        simp only [add_item]
        rw [if_pos hstrip]
      rw [hval]
      constructor
      · intro hcontr
        exact Bool.noConfusion hcontr
      · rintro ⟨m, _, _, _, hdup⟩
        have hn : normalize_item text = "" :=
          normalize_item_of_pyStrip_empty text hstrip
        have hd : is_duplicate_item text m.items = true := by
          unfold is_duplicate_item
          rw [hn]
          simp
        rw [hd] at hdup
        exact absurd hdup (by decide)
    · cases hm : db_get_member s mid with
      | none =>
        have hval : add_item s mid text now = (.err "Member not found", s) := by
          simp only [add_item, hm]
          rw [if_neg hstrip]
        rw [hval]
        constructor
        · intro hcontr
          exact Bool.noConfusion hcontr
        · rintro ⟨m, hm2, _⟩
          exact Option.noConfusion hm2
      | some member =>
        have huniq : ∀ m' : Member, some member = some m' → m' = member := by
          intro m' hm2
          injection hm2 with h2
          exact h2.symm
        by_cases h1 : member.is_observer = true
        · have hval : add_item s mid text now =
              (.err "Observers cannot add items", s) := by
            simp only [add_item, hm]
            rw [if_neg hstrip, if_pos h1]
          rw [hval]
          constructor
          · intro hcontr
            exact Bool.noConfusion hcontr
          · rintro ⟨m, hm2, hobs, _, _⟩
            rw [huniq m hm2, h1] at hobs
            exact absurd hobs (by decide)
        · by_cases h2 : member.is_ready = true
          · have hval : add_item s mid text now =
                (.err "Cannot add items after marking ready", s) := by
              simp only [add_item, hm]
              rw [if_neg hstrip, if_neg h1, if_pos h2]
            rw [hval]
            constructor
            · intro hcontr
              exact Bool.noConfusion hcontr
            · rintro ⟨m, hm2, _, hrdy, _⟩
              rw [huniq m hm2, h2] at hrdy
              exact absurd hrdy (by decide)
          · by_cases h3 : is_duplicate_item (pyStrip text) member.items = true
            · have hval : add_item s mid text now = (.err "Duplicate item", s) := by
                simp only [add_item, hm]
                rw [if_neg hstrip, if_neg h1, if_neg h2, if_pos h3]
              rw [hval]
              constructor
              · intro hcontr
                exact Bool.noConfusion hcontr
              · rintro ⟨m, hm2, _, _, hdup⟩
                rw [huniq m hm2, ← is_duplicate_item_pyStrip, h3] at hdup
                exact absurd hdup (by decide)
            · have hval : add_item s mid text now =
                  (.ok (member.items ++ [pyStrip text]),
                    db_update_member_items s mid
                      (member.items ++ [pyStrip text]) now) := by
                simp only [add_item, hm]
                rw [if_neg hstrip, if_neg h1, if_neg h2, if_neg h3]
              rw [hval]
              constructor
              · intro _
                exact ⟨member, rfl, Bool.eq_false_iff.mpr h1,
                  Bool.eq_false_iff.mpr h2, by
                    rw [← is_duplicate_item_pyStrip]
                    exact Bool.eq_false_iff.mpr h3⟩
              · intro _
                rfl
  · have hget : db_get_member { s with phase := p } mid = db_get_member s mid :=
      rfl
    simp only [add_item, hget]
    by_cases hstrip : pyStrip text = ""
    · simp [hstrip]
    · cases hm : db_get_member s mid with
      | none =>
        simp [hstrip, hm]
      | some member =>
        simp only [hstrip, hm, if_neg]
        split_ifs <;> rfl
  · have hget : db_get_member { s with phase := p } mid = db_get_member s mid :=
      rfl
    simp only [remove_item, hget]
    cases hm : db_get_member s mid with
    | none => simp [hm]
    | some member =>
      simp only [hm]
      split_ifs <;> rfl

/-! ### C5: roll-next exclusion -/

theorem getD_mem {α : Type} (l : List α) (i : Nat) (d : α) (h : i < l.length) :
    l.getD i d ∈ l := by
  rw [List.getD_eq_getElem?_getD, List.getElem?_eq_getElem h]
  simp [List.getElem_mem]

theorem fair_index_lt (n : Nat) (hn : 0 < n) (r : Int) :
    (fair_random_select (n : Int) r).toNat < n := by
  unfold fair_random_select
  rw [if_neg (by exact_mod_cast Nat.not_le.mpr hn : ¬((n : Int) ≤ 0))]
  have h1 : 0 ≤ r % (n : Int) := Int.emod_nonneg r (by exact_mod_cast Nat.pos_iff_ne_zero.mp hn)
  have h2 : r % (n : Int) < (n : Int) := Int.emod_lt_of_pos r (by exact_mod_cast hn)
  omega

theorem addToGroup_values_nonempty (gs : List (Finset String × List String))
    (key : Finset String) (item : String)
    (h : ∀ p ∈ gs, p.2 ≠ []) :
    ∀ p ∈ addToGroup gs key item, p.2 ≠ [] := by
  induction gs with
  | nil =>
    intro p hp
    simp only [addToGroup, List.mem_singleton] at hp
    rw [hp]
    simp
  | cons a rest ih =>
    obtain ⟨k, its⟩ := a
    intro p hp
    unfold addToGroup at hp
    split_ifs at hp with hk
    · rcases List.mem_cons.mp hp with rfl | hmem
      · simp
      · exact h p (List.mem_cons_of_mem _ hmem)
    · rcases List.mem_cons.mp hp with rfl | hmem
      · exact h (k, its) (List.mem_cons_self _ _)
      · exact ih (fun q hq => h q (List.mem_cons_of_mem _ hq)) p hmem

theorem addToGroup_mem_values (gs : List (Finset String × List String))
    (key : Finset String) (item : String) (p : Finset String × List String)
    (hp : p ∈ addToGroup gs key item) (v : String) (hv : v ∈ p.2) :
    (∃ q ∈ gs, v ∈ q.2) ∨ v = item := by
  induction gs with
  | nil =>
    simp only [addToGroup, List.mem_singleton] at hp
    rw [hp] at hv
    right
    exact List.mem_singleton.mp hv
  | cons a rest ih =>
    obtain ⟨k, its⟩ := a
    unfold addToGroup at hp
    split_ifs at hp with hk
    · rcases List.mem_cons.mp hp with rfl | hmem
      · rcases List.mem_append.mp hv with hv1 | hv2
        · exact Or.inl ⟨(k, its), (List.mem_cons_self _ _), hv1⟩
        · exact Or.inr (List.mem_singleton.mp hv2)
      · exact Or.inl ⟨p, List.mem_cons_of_mem _ hmem, hv⟩
    · rcases List.mem_cons.mp hp with rfl | hmem
      · exact Or.inl ⟨(k, its), (List.mem_cons_self _ _), hv⟩
      · rcases ih hmem with ⟨q, hq, hvq⟩ | hvi
        · exact Or.inl ⟨q, List.mem_cons_of_mem _ hq, hvq⟩
        · exact Or.inr hvi

theorem buildGroups_fold_values_nonempty (ia : List (String × Finset String))
    (ex : List String) (nto : List (String × String))
    (gs0 : List (Finset String × List String)) (h : ∀ p ∈ gs0, p.2 ≠ []) :
    ∀ p ∈ nto.foldl (buildStep ia ex) gs0, p.2 ≠ [] := by
  induction nto generalizing gs0 with
  | nil => exact h
  | cons e rest ih =>
    rw [List.foldl_cons]
    apply ih
    simp only [buildStep]
    split_ifs with h1 h2
    · exact h
    · exact h
    · exact addToGroup_values_nonempty gs0 _ _ h

theorem buildGroups_values_nonempty (nto : List (String × String))
    (ia : List (String × Finset String)) (ex : List String) :
    ∀ p ∈ buildGroups nto ia ex, p.2 ≠ [] :=
  buildGroups_fold_values_nonempty ia ex nto [] (by simp)

theorem buildGroups_fold_values (ia : List (String × Finset String))
    (ex : List String) (nto : List (String × String))
    (gs0 : List (Finset String × List String)) :
    ∀ p ∈ nto.foldl (buildStep ia ex) gs0, ∀ v ∈ p.2,
      (∃ q ∈ gs0, v ∈ q.2) ∨
      ∃ e ∈ nto, v = e.2 ∧ ex.any (fun x => items_equal e.2 x) = false := by
  induction nto generalizing gs0 with
  | nil =>
    intro p hp v hv
    exact Or.inl ⟨p, hp, hv⟩
  | cons e rest ih =>
    intro p hp v hv
    rw [List.foldl_cons] at hp
    rcases ih (buildStep ia ex gs0 e) p hp v hv with ⟨q, hq, hvq⟩ | ⟨e2, he2, hv2, hex2⟩
    · simp only [buildStep] at hq
      split_ifs at hq with h1 h2
      · exact Or.inl ⟨q, hq, hvq⟩
      · exact Or.inl ⟨q, hq, hvq⟩
      · rcases addToGroup_mem_values gs0 _ _ q hq v hvq with ⟨q2, hq2, hvq2⟩ | hvi
        · exact Or.inl ⟨q2, hq2, hvq2⟩
        · refine Or.inr ⟨e, (List.mem_cons_self _ _), hvi, ?_⟩
          exact Bool.eq_false_iff.mpr h1
    · exact Or.inr ⟨e2, List.mem_cons_of_mem _ he2, hv2, hex2⟩

theorem buildGroups_values_not_excluded (nto : List (String × String))
    (ia : List (String × Finset String)) (ex : List String) :
    ∀ p ∈ buildGroups nto ia ex, ∀ v ∈ p.2,
      ∃ e ∈ nto, v = e.2 ∧ ex.any (fun x => items_equal e.2 x) = false := by
  intro p hp v hv
  rcases buildGroups_fold_values ia ex nto [] p hp v hv with ⟨q, hq, _⟩ | h
  · cases hq
  · exact h

theorem pick_from_groups_mem (groups : List (Finset String × List String))
    (hne : groups ≠ []) (hvals : ∀ p ∈ groups, p.2 ≠ []) (r1 r2 : Int) :
    ∃ p ∈ groups, pick_from_groups groups r1 r2 ∈ p.2 := by
  simp only [pick_from_groups]
  have hlen : 0 < (groups.map (fun p => p.2)).length := by
    rw [List.length_map]
    exact List.length_pos.mpr hne
  have hsel : (groups.map (fun p => p.2)).getD
      (fair_random_select ((groups.map (fun p => p.2)).length : Int) r1).toNat [] ∈
      groups.map (fun p => p.2) :=
    getD_mem _ _ _ (fair_index_lt _ hlen r1)
  obtain ⟨p, hp, hpe⟩ := List.mem_map.mp hsel
  refine ⟨p, hp, ?_⟩
  rw [← hpe]
  have hplen : 0 < p.2.length :=
    List.length_pos.mpr (hvals p hp)
  exact getD_mem _ _ _ (fair_index_lt _ hplen r2)

/-- A session whose single active member owns the two-item pool
["Apple", "Bread"]. -/
def sessionTwoItemPool : Session :=
  ⟨PHASE_RESULT, "M", 0, [], [], [⟨"M", ["Apple", "Bread"], true, [], false, 0⟩]⟩

/-- `sessionTwoItemPool` after "Apple" has been excluded by roll-next. -/
def sessionTwoItemPoolX : Session :=
  ⟨PHASE_RESULT, "M", 0, ["Apple"], [], [⟨"M", ["Apple", "Bread"], true, [], false, 0⟩]⟩

theorem pick_from_groups_single (k : Finset String) (v : String) (r1 r2 : Int) :
    pick_from_groups [(k, [v])] r1 r2 = v := by
  have h1 : ∀ r : Int, fair_random_select (((1 : Nat) : Int)) r = 0 := by
    intro r
    unfold fair_random_select
    rw [if_neg (by omega)]
    exact Int.emod_one r
  simp only [pick_from_groups, List.map_cons, List.map_nil]
  rw [show ([[v]] : List (List String)).length = (1 : Nat) from rfl]
  rw [h1 r1]
  simp only [Int.toNat_zero, List.getD_cons_zero]
  rw [show ([v] : List String).length = (1 : Nat) from rfl]
  rw [h1 r2]
  simp only [Int.toNat_zero, List.getD_cons_zero]

/-- C5: roll-next appends the current item to the excluded list exactly when
no excluded entry is normalized-equal to it (so a second roll-next with a
normalized-equal item appends nothing); while the grouping is nonempty,
selection leaves the session unchanged and never returns an item that is
normalized-equal to an excluded one; concretely, for the two-item pool
["Apple", "Bread"], after excluding "Apple" every selection returns
"Bread". -/
theorem C5_roll_next_exclusion (s : Session) (cur : String) (r1 r2 : Int) :
    (s.excluded_items.any (fun ex => items_equal cur ex) = false →
      roll_next s cur r1 r2 =
        select_item (db_set_excluded_items s (s.excluded_items ++ [cur])) r1 r2) ∧
    (s.excluded_items.any (fun ex => items_equal cur ex) = true →
      roll_next s cur r1 r2 = select_item s r1 r2) ∧
    (∀ cur2, items_equal cur2 cur = true →
      roll_next (db_set_excluded_items s (s.excluded_items ++ [cur])) cur2 r1 r2 =
        select_item (db_set_excluded_items s (s.excluded_items ++ [cur])) r1 r2) ∧
    (group_items_by_acceptance s ≠ [] →
      (select_item s r1 r2).2 = s ∧
      ∀ x, (select_item s r1 r2).1 = some x →
        ∀ e ∈ s.excluded_items, items_equal x e = false) ∧
    (∀ q1 q2 : Int,
      select_item sessionTwoItemPoolX q1 q2 = (some "Bread", sessionTwoItemPoolX)) ∧
    roll_next sessionTwoItemPool "Apple" r1 r2 = (some "Bread", sessionTwoItemPoolX) := by
  have hsingle : ∀ q1 q2 : Int,
      select_item sessionTwoItemPoolX q1 q2 = (some "Bread", sessionTwoItemPoolX) := by
    intro q1 q2
    have hg : group_items_by_acceptance sessionTwoItemPoolX =
        [({"M"}, ["Bread"])] := by decide
    simp only [select_item, hg]
    rw [if_neg (by simp)]
    rw [pick_from_groups_single]
  refine ⟨?_, ?_, ?_, ?_, hsingle, ?_⟩
  · intro hno
    simp only [roll_next, db_get_excluded_items, hno]
    rfl
  · intro hyes
    simp only [roll_next, db_get_excluded_items, hyes]
    rfl
  · intro cur2 h2
    have hany : ((db_set_excluded_items s
        (s.excluded_items ++ [cur])).excluded_items.any
          (fun ex => items_equal cur2 ex)) = true := by
      simp only [db_set_excluded_items, List.any_append, List.any_cons,
        List.any_nil, h2]
      simp
    simp only [roll_next, db_get_excluded_items, hany]
    rfl
  · intro hne
    have hval : select_item s r1 r2 =
        (some (pick_from_groups (group_items_by_acceptance s) r1 r2), s) := by
      simp only [select_item]
      rw [if_neg hne]
    rw [hval]
    refine ⟨rfl, ?_⟩
    intro x hx e he
    injection hx with hx
    rw [← hx]
    obtain ⟨p, hp, hmem⟩ := pick_from_groups_mem (group_items_by_acceptance s) hne
      (buildGroups_values_nonempty _ _ _) r1 r2
    obtain ⟨entry, _, hveq, hexf⟩ :=
      buildGroups_values_not_excluded _ _ s.excluded_items p hp _ hmem
    rw [hveq]
    have hall := List.any_eq_false.mp hexf e he
    exact Bool.eq_false_iff.mpr hall
  · have hno : (sessionTwoItemPool.excluded_items.any
        (fun ex => items_equal "Apple" ex)) = false := by decide
    have hX : db_set_excluded_items sessionTwoItemPool
        (sessionTwoItemPool.excluded_items ++ ["Apple"]) = sessionTwoItemPoolX := by
      decide
    simp only [roll_next, db_get_excluded_items, hno]
    rw [if_neg (by decide : ¬(false = true)), hX]
    exact hsingle r1 r2

/-- C5 witness: the append branch of the theorem at a concrete input. -/
theorem C5_roll_next_exclusion_witness :
    roll_next sessionTwoItemPool "Apple" 3 7 =
      select_item (db_set_excluded_items sessionTwoItemPool
        (sessionTwoItemPool.excluded_items ++ ["Apple"])) 3 7 :=
  (C5_roll_next_exclusion sessionTwoItemPool "Apple" 3 7).1 (by decide)

/-! ### C1: acceptance grouping -/

theorem lookupAcc_addAcceptance_self (ia : List (String × Finset String))
    (n m : String) :
    lookupAcc (addAcceptance ia n m) n = insert m (lookupAcc ia n) := by
  induction ia with
  | nil => simp [addAcceptance, lookupAcc]
  | cons a rest ih =>
    obtain ⟨k0, acc⟩ := a
    by_cases h : k0 = n
    · subst h
      simp [addAcceptance, lookupAcc]
    · simp only [addAcceptance, if_neg h, lookupAcc]
      exact ih

theorem lookupAcc_addAcceptance_ne (ia : List (String × Finset String))
    (n m k : String) (hk : k ≠ n) :
    lookupAcc (addAcceptance ia n m) k = lookupAcc ia k := by
  induction ia with
  | nil =>
    simp only [addAcceptance, lookupAcc]
    rw [if_neg (fun hh => hk hh.symm)]
  | cons a rest ih =>
    obtain ⟨k0, acc⟩ := a
    by_cases h : k0 = n
    · subst h
      simp only [addAcceptance, if_pos rfl, lookupAcc]
      rw [if_neg (fun hh => hk hh.symm), if_neg (fun hh => hk hh.symm)]
    · simp only [addAcceptance, if_neg h, lookupAcc]
      by_cases h2 : k0 = k
      · rw [if_pos h2, if_pos h2]
      · rw [if_neg h2, if_neg h2]
        exact ih

theorem lookupOrig_append_some (nto : List (String × String))
    (l : List (String × String)) (k : String) (o : String)
    (h : lookupOrig nto k = some o) : lookupOrig (nto ++ l) k = some o := by
  induction nto with
  | nil => exact absurd h (by simp [lookupOrig])
  | cons a rest ih =>
    obtain ⟨k0, o0⟩ := a
    simp only [lookupOrig, List.cons_append] at h ⊢
    by_cases h1 : k0 = k
    · rwa [if_pos h1] at h ⊢
    · rw [if_neg h1] at h ⊢
      exact ih h

theorem lookupOrig_append_self (nto : List (String × String)) (n it : String)
    (h : lookupOrig nto n = none) : lookupOrig (nto ++ [(n, it)]) n = some it := by
  induction nto with
  | nil => simp [lookupOrig]
  | cons a rest ih =>
    obtain ⟨k0, o0⟩ := a
    simp only [lookupOrig, List.cons_append] at h ⊢
    by_cases h1 : k0 = n
    · rw [if_pos h1] at h
      cases h
    · rw [if_neg h1] at h ⊢
      exact ih h

theorem lookupOrig_mem (nto : List (String × String)) (k o : String)
    (h : lookupOrig nto k = some o) : (k, o) ∈ nto := by
  induction nto with
  | nil => exact absurd h (by simp [lookupOrig])
  | cons a rest ih =>
    obtain ⟨k0, o0⟩ := a
    simp only [lookupOrig] at h
    by_cases h1 : k0 = k
    · rw [if_pos h1] at h
      injection h with h2
      subst h1
      subst h2
      exact List.mem_cons_self _ _
    · rw [if_neg h1] at h
      exact List.mem_cons_of_mem _ (ih h)

theorem procAccItem_nto (st : GState) (mid it : String) :
    (procAccItem st mid it).normalized_to_original = st.normalized_to_original := by
  simp only [procAccItem]
  split_ifs <;> rfl

theorem acc_fold_nto (accepted : List String) (st : GState) (mid : String) :
    ((accepted.foldl (fun st it => procAccItem st mid it) st).normalized_to_original) =
      st.normalized_to_original := by
  induction accepted generalizing st with
  | nil => rfl
  | cons a rest ih =>
    rw [List.foldl_cons, ih, procAccItem_nto]

theorem lookupOrig_procOwnItem_some (st : GState) (mid2 it k o : String)
    (h : lookupOrig st.normalized_to_original k = some o) :
    lookupOrig (procOwnItem st mid2 it).normalized_to_original k = some o := by
  simp only [procOwnItem]
  split_ifs with hreg
  · exact h
  · exact lookupOrig_append_some _ _ _ _ h

theorem own_fold_some (items : List String) (st : GState) (mid2 k o : String)
    (h : lookupOrig st.normalized_to_original k = some o) :
    lookupOrig ((items.foldl (fun st it => procOwnItem st mid2 it)
      st).normalized_to_original) k = some o := by
  induction items generalizing st with
  | nil => exact h
  | cons a rest ih =>
    rw [List.foldl_cons]
    exact ih _ (lookupOrig_procOwnItem_some st mid2 a k o h)

theorem procMember_some (st : GState) (mm : Member) (k o : String)
    (h : lookupOrig st.normalized_to_original k = some o) :
    lookupOrig (procMember st mm).normalized_to_original k = some o := by
  simp only [procMember]
  rw [acc_fold_nto]
  exact own_fold_some _ _ _ _ _ h

theorem members_fold_some (ms : List Member) (st : GState) (k o : String)
    (h : lookupOrig st.normalized_to_original k = some o) :
    lookupOrig ((ms.foldl procMember st).normalized_to_original) k = some o := by
  induction ms generalizing st with
  | nil => exact h
  | cons a rest ih =>
    rw [List.foldl_cons]
    exact ih _ (procMember_some st a k o h)

theorem lookupOrig_procOwnItem_self (st : GState) (mid2 it : String) :
    (lookupOrig (procOwnItem st mid2 it).normalized_to_original
      (normalize_item it)).isSome = true := by
  simp only [procOwnItem]
  split_ifs with hreg
  · exact hreg
  · rw [lookupOrig_append_self]
    · rfl
    · exact Option.not_isSome_iff_eq_none.mp (by simp [hreg])

theorem own_fold_registers (items : List String) (st : GState) (mid2 it : String)
    (hit : it ∈ items) :
    (lookupOrig ((items.foldl (fun st i => procOwnItem st mid2 i)
      st).normalized_to_original) (normalize_item it)).isSome = true := by
  induction items generalizing st with
  | nil => cases hit
  | cons a rest ih =>
    rw [List.foldl_cons]
    rcases List.mem_cons.mp hit with rfl | hmem
    · have h1 := lookupOrig_procOwnItem_self st mid2 it
      obtain ⟨o, ho⟩ := Option.isSome_iff_exists.mp h1
      have h2 := own_fold_some rest (procOwnItem st mid2 it) mid2
        (normalize_item it) o ho
      rw [h2]
      rfl
    · exact ih _ hmem

theorem members_fold_registers (ms : List Member) (st : GState) (mm : Member)
    (it : String) (hm : mm ∈ ms) (hit : it ∈ mm.items) :
    (lookupOrig ((ms.foldl procMember st).normalized_to_original)
      (normalize_item it)).isSome = true := by
  induction ms generalizing st with
  | nil => cases hm
  | cons a rest ih =>
    rw [List.foldl_cons]
    rcases List.mem_cons.mp hm with rfl | hmem
    · have h1 : (lookupOrig (procMember st mm).normalized_to_original
          (normalize_item it)).isSome = true := by
        simp only [procMember]
        rw [acc_fold_nto]
        exact own_fold_registers mm.items st mm.member_id it hit
      obtain ⟨o, ho⟩ := Option.isSome_iff_exists.mp h1
      rw [members_fold_some rest _ _ o ho]
      rfl
    · exact ih _ hmem

theorem mem_lookupAcc_addAcceptance (ia : List (String × Finset String))
    (n m2 mid k : String) (h : mid ∈ lookupAcc ia k) :
    mid ∈ lookupAcc (addAcceptance ia n m2) k := by
  by_cases hk : k = n
  · subst hk
    rw [lookupAcc_addAcceptance_self]
    exact Finset.mem_insert_of_mem h
  · rwa [lookupAcc_addAcceptance_ne _ _ _ _ hk]

theorem mem_lookupAcc_procOwnItem (st : GState) (mid2 it mid k : String)
    (h : mid ∈ lookupAcc st.item_acceptances k) :
    mid ∈ lookupAcc (procOwnItem st mid2 it).item_acceptances k := by
  simp only [procOwnItem]
  exact mem_lookupAcc_addAcceptance _ _ _ _ _ h

theorem mem_lookupAcc_procAccItem (st : GState) (mid2 it mid k : String)
    (h : mid ∈ lookupAcc st.item_acceptances k) :
    mid ∈ lookupAcc (procAccItem st mid2 it).item_acceptances k := by
  simp only [procAccItem]
  split_ifs
  · exact mem_lookupAcc_addAcceptance _ _ _ _ _ h
  · exact h

theorem own_fold_mem_acc (items : List String) (st : GState) (mid2 mid k : String)
    (h : mid ∈ lookupAcc st.item_acceptances k) :
    mid ∈ lookupAcc ((items.foldl (fun st it => procOwnItem st mid2 it)
      st).item_acceptances) k := by
  induction items generalizing st with
  | nil => exact h
  | cons a rest ih =>
    rw [List.foldl_cons]
    exact ih _ (mem_lookupAcc_procOwnItem st mid2 a mid k h)

theorem acc_fold_mem_acc (accepted : List String) (st : GState) (mid2 mid k : String)
    (h : mid ∈ lookupAcc st.item_acceptances k) :
    mid ∈ lookupAcc ((accepted.foldl (fun st it => procAccItem st mid2 it)
      st).item_acceptances) k := by
  induction accepted generalizing st with
  | nil => exact h
  | cons a rest ih =>
    rw [List.foldl_cons]
    exact ih _ (mem_lookupAcc_procAccItem st mid2 a mid k h)

theorem members_fold_mem_acc (ms : List Member) (st : GState) (mid k : String)
    (h : mid ∈ lookupAcc st.item_acceptances k) :
    mid ∈ lookupAcc ((ms.foldl procMember st).item_acceptances) k := by
  induction ms generalizing st with
  | nil => exact h
  | cons a rest ih =>
    rw [List.foldl_cons]
    apply ih
    simp only [procMember]
    exact acc_fold_mem_acc _ _ _ _ _ (own_fold_mem_acc _ _ _ _ _ h)

theorem acc_fold_adds (accepted : List String) (st : GState) (mid acc : String)
    (hacc : acc ∈ accepted)
    (hreg : (lookupOrig st.normalized_to_original
      (normalize_item acc)).isSome = true) :
    mid ∈ lookupAcc ((accepted.foldl (fun st it => procAccItem st mid it)
      st).item_acceptances) (normalize_item acc) := by
  induction accepted generalizing st with
  | nil => cases hacc
  | cons a rest ih =>
    rw [List.foldl_cons]
    rcases List.mem_cons.mp hacc with rfl | hmem
    · have h1 : mid ∈ lookupAcc (procAccItem st mid acc).item_acceptances
          (normalize_item acc) := by
        simp only [procAccItem]
        rw [if_pos hreg, lookupAcc_addAcceptance_self]
        exact Finset.mem_insert_self _ _
      exact acc_fold_mem_acc rest _ mid mid _ h1
    · apply ih _ hmem
      rw [procAccItem_nto]
      exact hreg

theorem nto_key_procOwnItem (st : GState) (mid it : String)
    (h : ∀ e ∈ st.normalized_to_original, normalize_item e.2 = e.1) :
    ∀ e ∈ (procOwnItem st mid it).normalized_to_original,
      normalize_item e.2 = e.1 := by
  simp only [procOwnItem]
  split_ifs with hreg
  · exact h
  · intro e he
    rcases List.mem_append.mp he with h1 | h2
    · exact h e h1
    · rw [List.mem_singleton] at h2
      subst h2
      rfl

theorem nto_key_own_fold (items : List String) (st : GState) (mid : String)
    (h : ∀ e ∈ st.normalized_to_original, normalize_item e.2 = e.1) :
    ∀ e ∈ ((items.foldl (fun st i => procOwnItem st mid i)
      st).normalized_to_original), normalize_item e.2 = e.1 := by
  induction items generalizing st with
  | nil => exact h
  | cons a rest ih =>
    rw [List.foldl_cons]
    exact ih _ (nto_key_procOwnItem st mid a h)

theorem nto_key_members_fold (ms : List Member) (st : GState)
    (h : ∀ e ∈ st.normalized_to_original, normalize_item e.2 = e.1) :
    ∀ e ∈ ((ms.foldl procMember st).normalized_to_original),
      normalize_item e.2 = e.1 := by
  induction ms generalizing st with
  | nil => exact h
  | cons a rest ih =>
    rw [List.foldl_cons]
    apply ih
    simp only [procMember]
    rw [acc_fold_nto]
    exact nto_key_own_fold _ _ _ h

theorem nto_items_own_fold (items : List String) (st : GState) (mid : String) :
    ∀ e ∈ ((items.foldl (fun st i => procOwnItem st mid i)
      st).normalized_to_original),
      e ∈ st.normalized_to_original ∨ e.2 ∈ items := by
  induction items generalizing st with
  | nil =>
    intro e he
    exact Or.inl he
  | cons a rest ih =>
    intro e he
    rw [List.foldl_cons] at he
    rcases ih (procOwnItem st mid a) e he with h1 | h2
    · simp only [procOwnItem] at h1
      split_ifs at h1 with hreg
      · exact Or.inl h1
      · rcases List.mem_append.mp h1 with h3 | h4
        · exact Or.inl h3
        · rw [List.mem_singleton] at h4
          subst h4
          exact Or.inr (List.mem_cons_self _ _)
    · exact Or.inr (List.mem_cons_of_mem _ h2)

theorem nto_items_members_fold (ms : List Member) (st : GState) :
    ∀ e ∈ ((ms.foldl procMember st).normalized_to_original),
      e ∈ st.normalized_to_original ∨ ∃ mm ∈ ms, e.2 ∈ mm.items := by
  induction ms generalizing st with
  | nil =>
    intro e he
    exact Or.inl he
  | cons a rest ih =>
    intro e he
    rw [List.foldl_cons] at he
    rcases ih (procMember st a) e he with h1 | ⟨mm, hmm, hit⟩
    · have h2 : e ∈ (procMember st a).normalized_to_original := h1
      simp only [procMember] at h2
      rw [acc_fold_nto] at h2
      rcases nto_items_own_fold a.items st a.member_id e h2 with h3 | h4
      · exact Or.inl h3
      · exact Or.inr ⟨a, List.mem_cons_self _ _, h4⟩
    · exact Or.inr ⟨mm, List.mem_cons_of_mem _ hmm, hit⟩

theorem addToGroup_mem_self (gs : List (Finset String × List String))
    (key : Finset String) (item : String) :
    ∃ vs, (key, vs) ∈ addToGroup gs key item ∧ item ∈ vs := by
  induction gs with
  | nil =>
    exact ⟨[item], List.mem_singleton.mpr rfl, List.mem_singleton.mpr rfl⟩
  | cons a rest ih =>
    obtain ⟨k0, its⟩ := a
    simp only [addToGroup]
    split_ifs with h
    · subst h
      exact ⟨its ++ [item], List.mem_cons_self _ _,
        List.mem_append.mpr (Or.inr (List.mem_singleton.mpr rfl))⟩
    · obtain ⟨vs, hvs, hv⟩ := ih
      exact ⟨vs, List.mem_cons_of_mem _ hvs, hv⟩

theorem addToGroup_preserves (gs : List (Finset String × List String))
    (key : Finset String) (vs : List String) (v : String)
    (key2 : Finset String) (item : String)
    (h : (key, vs) ∈ gs) (hv : v ∈ vs) :
    ∃ vs2, (key, vs2) ∈ addToGroup gs key2 item ∧ v ∈ vs2 := by
  induction gs with
  | nil => cases h
  | cons a rest ih =>
    obtain ⟨k0, its⟩ := a
    simp only [addToGroup]
    split_ifs with hk
    · rcases List.mem_cons.mp h with heq | hmem
      · injection heq with he1 he2
        subst he1
        subst he2
        exact ⟨vs ++ [item], List.mem_cons_self _ _,
          List.mem_append.mpr (Or.inl hv)⟩
      · exact ⟨vs, List.mem_cons_of_mem _ hmem, hv⟩
    · rcases List.mem_cons.mp h with heq | hmem
      · exact ⟨vs, heq ▸ List.mem_cons_self _ _, hv⟩
      · obtain ⟨vs2, hvs2, hv2⟩ := ih hmem
        exact ⟨vs2, List.mem_cons_of_mem _ hvs2, hv2⟩

theorem buildStep_preserves (ia : List (String × Finset String)) (ex : List String)
    (gs : List (Finset String × List String)) (e : String × String)
    (key : Finset String) (vs : List String) (v : String)
    (h : (key, vs) ∈ gs) (hv : v ∈ vs) :
    ∃ vs2, (key, vs2) ∈ buildStep ia ex gs e ∧ v ∈ vs2 := by
  simp only [buildStep]
  split_ifs
  · exact ⟨vs, h, hv⟩
  · exact ⟨vs, h, hv⟩
  · exact addToGroup_preserves gs key vs v _ _ h hv

theorem buildFold_preserves (ia : List (String × Finset String)) (ex : List String)
    (nto : List (String × String)) (gs0 : List (Finset String × List String))
    (key : Finset String) (vs : List String) (v : String)
    (h : (key, vs) ∈ gs0) (hv : v ∈ vs) :
    ∃ vs2, (key, vs2) ∈ nto.foldl (buildStep ia ex) gs0 ∧ v ∈ vs2 := by
  induction nto generalizing gs0 vs with
  | nil => exact ⟨vs, h, hv⟩
  | cons e rest ih =>
    rw [List.foldl_cons]
    obtain ⟨vs2, hvs2, hv2⟩ := buildStep_preserves ia ex gs0 e key vs v h hv
    exact ih _ _ hvs2 hv2

theorem buildFold_includes (ia : List (String × Finset String)) (ex : List String)
    (nto : List (String × String)) (gs0 : List (Finset String × List String))
    (e : String × String) (he : e ∈ nto)
    (hex : ex.any (fun x => items_equal e.2 x) = false)
    (hne : lookupAcc ia e.1 ≠ ∅) :
    ∃ vs, (lookupAcc ia e.1, vs) ∈ nto.foldl (buildStep ia ex) gs0 ∧ e.2 ∈ vs := by
  induction nto generalizing gs0 with
  | nil => cases he
  | cons a rest ih =>
    rw [List.foldl_cons]
    rcases List.mem_cons.mp he with rfl | hmem
    · have hstep : ∃ vs, (lookupAcc ia e.1, vs) ∈ buildStep ia ex gs0 e ∧
          e.2 ∈ vs := by
        simp only [buildStep]
        rw [hex]
        rw [if_neg (by decide : ¬(false = true)), if_neg hne]
        exact addToGroup_mem_self gs0 _ _
      obtain ⟨vs, hvs, hv⟩ := hstep
      exact buildFold_preserves ia ex rest _ _ vs e.2 hvs hv
    · exact ih _ hmem

/-- Member A of the acceptance-grouping scenario: proposes "Tea", accepts
nothing extra. -/
def memberTeaA : Member := ⟨"A", ["Tea"], false, [], false, 0⟩

/-- Member B of the acceptance-grouping scenario: proposes "Coffee" and
explicitly accepts "Tea". -/
def memberCoffeeB : Member := ⟨"B", ["Coffee"], false, ["Tea"], false, 0⟩

/-- The scenario session with members iterated in order [A, B]. -/
def sessionTeaCoffeeAB : Session :=
  ⟨PHASE_RESULT, "A", 0, [], [], [memberTeaA, memberCoffeeB]⟩

/-- The same members iterated in order [B, A]. -/
def sessionTeaCoffeeBA : Session :=
  ⟨PHASE_RESULT, "A", 0, [], [], [memberCoffeeB, memberTeaA]⟩

/-- C1 counterexample: with member iteration order [B, A], B's acceptance of
"Tea" is processed before "Tea" is registered as A's original item, so it is
silently dropped: "Tea" is grouped under acceptor set {"A"} only, refuting
the claim that the grouping is independent of iteration order. -/
theorem C1_counterexample :
    group_items_by_acceptance sessionTeaCoffeeBA =
      [({"B"}, ["Coffee"]), ({"A"}, ["Tea"])] ∧
    "B" ∉ ({"A"} : Finset String) := by
  decide

/-- C1 (amended): an accepted string credits its member only when the
matching original item belongs to a member at an earlier-or-equal position
in the iteration order (the member's own items are registered before its
accepted items are processed); in that case the member is in the acceptor
set of the group containing the registered original.  Accepted strings whose
normalized key matches no member's original item are ignored: every grouped
item is some active member's original item.  With iteration order [A, B]
the concrete scenario groups "Tea" under {A, B} and "Coffee" under {B}. -/
theorem C1_group_items_by_acceptance (s : Session) (pre post : List Member)
    (m mj : Member) (acc it : String)
    (hsplit : db_get_active_members s = pre ++ m :: post)
    (hmj : mj ∈ pre ∨ mj = m)
    (hacc : acc ∈ m.accepted_items)
    (hit : it ∈ mj.items)
    (hnorm : normalize_item it = normalize_item acc)
    (hex : s.excluded_items.any (fun x => items_equal acc x) = false) :
    (∃ key vs, (key, vs) ∈ group_items_by_acceptance s ∧ m.member_id ∈ key ∧
      ∃ orig ∈ vs, normalize_item orig = normalize_item acc) ∧
    (∀ p ∈ group_items_by_acceptance s, ∀ v ∈ p.2,
      ∃ mm ∈ db_get_active_members s, v ∈ mm.items) ∧
    group_items_by_acceptance sessionTeaCoffeeAB =
      [({"A", "B"}, ["Tea"]), ({"B"}, ["Coffee"])] := by
  set stF := (db_get_active_members s).foldl procMember (⟨[], []⟩ : GState)
    with hstF
  set st1 := pre.foldl procMember (⟨[], []⟩ : GState) with hst1
  set stOwn := m.items.foldl (fun st it => procOwnItem st m.member_id it) st1
    with hstOwn
  set st2 := m.accepted_items.foldl (fun st it => procAccItem st m.member_id it)
    stOwn with hst2
  have hgroups : group_items_by_acceptance s =
      buildGroups stF.normalized_to_original stF.item_acceptances
        s.excluded_items := rfl
  have htotal : stF = post.foldl procMember st2 := by
    rw [hstF, hst2, hstOwn, hst1, hsplit, List.foldl_append, List.foldl_cons]
    rfl
  have hreg : (lookupOrig stOwn.normalized_to_original
      (normalize_item acc)).isSome = true := by
    rcases hmj with hpre | heq
    · have h1 : (lookupOrig st1.normalized_to_original
          (normalize_item it)).isSome = true := by
        rw [hst1]
        exact members_fold_registers pre ⟨[], []⟩ mj it hpre hit
      rw [hnorm] at h1
      obtain ⟨o, ho⟩ := Option.isSome_iff_exists.mp h1
      rw [hstOwn, own_fold_some m.items st1 m.member_id _ o ho]
      rfl
    · subst heq
      rw [← hnorm, hstOwn]
      exact own_fold_registers mj.items st1 mj.member_id it hit
  have hacc2 : m.member_id ∈ lookupAcc st2.item_acceptances
      (normalize_item acc) := by
    rw [hst2]
    exact acc_fold_adds m.accepted_items stOwn m.member_id acc hacc hreg
  have haccF : m.member_id ∈ lookupAcc stF.item_acceptances
      (normalize_item acc) := by
    rw [htotal]
    exact members_fold_mem_acc post st2 _ _ hacc2
  have hregF : ∃ o, lookupOrig stF.normalized_to_original
      (normalize_item acc) = some o := by
    have h2 : lookupOrig st2.normalized_to_original (normalize_item acc) =
        lookupOrig stOwn.normalized_to_original (normalize_item acc) := by
      rw [hst2, acc_fold_nto]
    obtain ⟨o, ho⟩ := Option.isSome_iff_exists.mp hreg
    refine ⟨o, ?_⟩
    rw [htotal]
    exact members_fold_some post st2 _ o (by rw [h2]; exact ho)
  obtain ⟨o, ho⟩ := hregF
  have hmem_nto : (normalize_item acc, o) ∈ stF.normalized_to_original :=
    lookupOrig_mem _ _ _ ho
  have hkey : normalize_item o = normalize_item acc := by
    have hm2 : (normalize_item acc, o) ∈ ((db_get_active_members s).foldl
        procMember (⟨[], []⟩ : GState)).normalized_to_original := by
      rw [← hstF]
      exact hmem_nto
    exact nto_key_members_fold (db_get_active_members s) ⟨[], []⟩
      (fun e he => absurd he (List.not_mem_nil e)) (normalize_item acc, o) hm2
  have hex2 : s.excluded_items.any (fun x => items_equal o x) = false := by
    have hfun : (fun x => items_equal o x) = fun x => items_equal acc x := by
      funext x
      unfold items_equal
      rw [hkey]
    rw [hfun]
    exact hex
  have hneF : lookupAcc stF.item_acceptances (normalize_item acc) ≠ ∅ :=
    Finset.ne_empty_of_mem haccF
  refine ⟨?_, ?_, by decide⟩
  · obtain ⟨vs, hvs, hov⟩ := buildFold_includes stF.item_acceptances
      s.excluded_items stF.normalized_to_original [] (normalize_item acc, o)
      hmem_nto hex2 hneF
    exact ⟨lookupAcc stF.item_acceptances (normalize_item acc), vs,
      by rw [hgroups]; exact hvs, haccF, o, hov, hkey⟩
  · intro p hp v hv
    rw [hgroups] at hp
    obtain ⟨e, he_nto, hveq, _⟩ := buildGroups_values_not_excluded
      stF.normalized_to_original stF.item_acceptances s.excluded_items p hp v hv
    have he2 : e ∈ ((db_get_active_members s).foldl procMember
        (⟨[], []⟩ : GState)).normalized_to_original := by
      rw [← hstF]
      exact he_nto
    rcases nto_items_members_fold (db_get_active_members s) ⟨[], []⟩ e he2 with
      h0 | ⟨mm, hmm, hit2⟩
    · exact absurd h0 (List.not_mem_nil e)
    · exact ⟨mm, hmm, by rw [hveq]; exact hit2⟩

/-- C1 witness: the amended theorem applied to the concrete [A, B]
scenario. -/
theorem C1_group_items_by_acceptance_witness :
    group_items_by_acceptance sessionTeaCoffeeAB =
      [({"A", "B"}, ["Tea"]), ({"B"}, ["Coffee"])] :=
  (C1_group_items_by_acceptance sessionTeaCoffeeAB [memberTeaA] []
    memberCoffeeB memberTeaA "Tea" "Tea" (by decide) (Or.inl (by decide))
    (by decide) (by decide) (by decide) (by decide)).2.2
